import Mathlib

/-!
Verification of the mu scripting-language runtime: NaN-boxed values,
reference counting, VM opcode handlers, field access, the bytecode
emitter's variable handling and register limits, class construction,
and linear-scan register allocation.

Each section shallowly embeds the corresponding Rust source.
-/

set_option maxHeartbeats 1000000

namespace nanbox

/-! Embedding of crates/runtime/src/value/impl/nanbox.rs.
An f64 is represented by its 64-bit pattern as a Nat; pointers by their
address as a Nat. -/

def QNAN : Nat := 0x7FFC000000000000
def TAG : Nat := 0xFFFF000000000000
def VALUE : Nat := 0x0000FFFFFFFFFFFF

def tyINT : Nat := 0x7FFC000000000000
def tyBOOL : Nat := 0x7FFD000000000000
def tyNONE : Nat := 0x7FFE000000000000
def tyOBJECT : Nat := 0x7FFF000000000000

structure Value where
  bits : Nat
deriving DecidableEq, Repr

/-- Value::float: panics (here: `none`) when the bit pattern is already a
quiet NaN of the reserved pattern. The f64 argument is given by its
`to_bits` pattern. -/
def Value.float (bits : Nat) : Option Value :=
  if bits &&& QNAN = QNAN then none else some ⟨bits⟩

/-- The bits of an i32 reinterpreted as a u32 (two's complement). -/
def u32bits (v : Int) : Nat := (v % (2 ^ 32)).toNat

def Value.int (v : Int) : Value := ⟨u32bits v ||| tyINT⟩

def Value.bool (b : Bool) : Value := ⟨(if b then 1 else 0) ||| tyBOOL⟩

def Value.none : Value := ⟨tyNONE⟩

def Value.object (addr : Nat) : Value := ⟨(addr &&& VALUE) ||| tyOBJECT⟩

def Value.value (v : Value) : Nat := v.bits &&& VALUE

def Value.type_tag (v : Value) : Nat := v.bits &&& TAG

def Value.is_float (v : Value) : Bool := v.bits &&& QNAN != QNAN

def Value.is_int (v : Value) : Bool := v.type_tag == tyINT

def Value.is_bool (v : Value) : Bool := v.type_tag == tyBOOL

def Value.is_none (v : Value) : Bool := v.type_tag == tyNONE

def Value.is_object (v : Value) : Bool := v.type_tag == tyOBJECT

/-- Number of the five type predicates that hold of a value. -/
def Value.tagCount (v : Value) : Nat :=
  [v.is_float, v.is_int, v.is_bool, v.is_none, v.is_object].count true

theorem low_land_tag {p : Nat} (hp : p < 2 ^ 48) : p &&& TAG = 0 := by
  apply Nat.eq_of_testBit_eq
  intro j
  simp only [Nat.testBit_and, Nat.zero_testBit]
  by_cases h : 48 ≤ j
  · have hpj : p < 2 ^ j := lt_of_lt_of_le hp (Nat.pow_le_pow_right (by norm_num) h)
    simp [Nat.testBit_lt_two_pow hpj]
  · have hT : TAG = 2 ^ 48 * 0xFFFF := by norm_num [TAG]
    rw [hT, Nat.testBit_mul_pow_two]
    simp [h]

theorem or_tag_and_TAG {p t : Nat} (hp : p < 2 ^ 48) : (p ||| t) &&& TAG = t &&& TAG := by
  rw [Nat.and_distrib_right, low_land_tag hp]
  simp

theorem qnan_of_tag {v : Value} (t : Nat) (ht : v.type_tag = t) (hq : t &&& QNAN = QNAN) :
    v.bits &&& QNAN = QNAN := by
  have h1 : TAG &&& QNAN = QNAN := by decide
  calc v.bits &&& QNAN = v.bits &&& (TAG &&& QNAN) := by rw [h1]
    _ = (v.bits &&& TAG) &&& QNAN := by rw [Nat.and_assoc]
    _ = QNAN := by rw [show v.bits &&& TAG = t from ht, hq]

theorem tagCount_one_of_tag {v : Value} (t : Nat)
    (ht : v.type_tag = t)
    (hq : t &&& QNAN = QNAN)
    (hcount : ([t == tyINT, t == tyBOOL, t == tyNONE, t == tyOBJECT].count true) = 1) :
    v.tagCount = 1 := by
  have hf : v.is_float = false := by
    simp [Value.is_float, qnan_of_tag t ht hq]
  simp only [Value.tagCount, Value.is_int, Value.is_bool, Value.is_none, Value.is_object,
    ht, hf]
  simpa using hcount

theorem u32bits_lt (v : Int) : u32bits v < 2 ^ 32 := by
  unfold u32bits
  have h1 : 0 ≤ v % (2 ^ 32 : Int) := Int.emod_nonneg v (by norm_num)
  have h2 : v % (2 ^ 32 : Int) < 2 ^ 32 := Int.emod_lt_of_pos v (by norm_num)
  omega

theorem type_tag_int (v : Int) : (Value.int v).type_tag = tyINT := by
  have h48 : u32bits v < 2 ^ 48 := lt_of_lt_of_le (u32bits_lt v) (by norm_num)
  show (u32bits v ||| tyINT) &&& TAG = tyINT
  rw [or_tag_and_TAG h48]
  decide

theorem type_tag_bool (b : Bool) : (Value.bool b).type_tag = tyBOOL := by
  have h48 : (if b then 1 else 0 : Nat) < 2 ^ 48 := by cases b <;> norm_num
  show ((if b then 1 else 0 : Nat) ||| tyBOOL) &&& TAG = tyBOOL
  rw [or_tag_and_TAG h48]
  decide

theorem type_tag_none : Value.none.type_tag = tyNONE := by decide

theorem type_tag_object (addr : Nat) : (Value.object addr).type_tag = tyOBJECT := by
  have h48 : addr &&& VALUE < 2 ^ 48 := Nat.and_lt_two_pow addr (by norm_num [VALUE])
  show ((addr &&& VALUE) ||| tyOBJECT) &&& TAG = tyOBJECT
  rw [or_tag_and_TAG h48]
  decide

theorem tagCount_float {bits : Nat} {v : Value} (h : Value.float bits = some v) :
    v.tagCount = 1 := by
  unfold Value.float at h
  split at h
  · exact absurd h (by simp)
  · rename_i hq
    injection h with h
    subst h
    have hf : Value.is_float ⟨bits⟩ = true := by
      simp [Value.is_float]
      exact hq
    have key : ∀ t : Nat, t &&& QNAN = QNAN → (Value.type_tag ⟨bits⟩ == t) = false := by
      intro t htq
      apply beq_eq_false_iff_ne.mpr
      intro he
      exact hq (qnan_of_tag t he htq)
    simp [Value.tagCount, Value.is_int, Value.is_bool, Value.is_none, Value.is_object, hf,
      key tyINT (by decide), key tyBOOL (by decide), key tyNONE (by decide),
      key tyOBJECT (by decide)]

/-- C2: every Value built through a public constructor (float, int, bool,
none, object) satisfies exactly one of the five type predicates, and
Value::float never produces a value from a bit pattern in the reserved
quiet-NaN tag range (it refuses such input). -/
theorem c2_value_tag_exclusive :
    (∀ bits v, Value.float bits = some v → v.tagCount = 1) ∧
    (∀ i : Int, (Value.int i).tagCount = 1) ∧
    (∀ b : Bool, (Value.bool b).tagCount = 1) ∧
    Value.none.tagCount = 1 ∧
    (∀ addr : Nat, (Value.object addr).tagCount = 1) ∧
    (∀ bits, bits &&& QNAN = QNAN → Value.float bits = Option.none) := by
  refine ⟨fun bits v h => tagCount_float h, fun i => ?_, fun b => ?_, ?_, fun addr => ?_,
    fun bits h => ?_⟩
  · exact tagCount_one_of_tag tyINT (type_tag_int i) (by decide) (by decide)
  · exact tagCount_one_of_tag tyBOOL (type_tag_bool b) (by decide) (by decide)
  · exact tagCount_one_of_tag tyNONE type_tag_none (by decide) (by decide)
  · exact tagCount_one_of_tag tyOBJECT (type_tag_object addr) (by decide) (by decide)
  · simp [Value.float, h]

/-! Reference counting: impl Clone / impl Drop for Value.
The heap is modelled as the strong count per address; Clone increments the
count of `self.value()` when the value is an object, Drop decrements it. -/

def Heap : Type := Nat → Nat

def cloneHeap (v : Value) (h : Heap) : Heap :=
  if v.is_object then (fun a => if a = v.value then h a + 1 else h a) else h

def dropHeap (v : Value) (h : Heap) : Heap :=
  if v.is_object then (fun a => if a = v.value then h a - 1 else h a) else h

/-- C3: dropping a clone of any Value leaves every refcount unchanged; Clone
increments the referent's count exactly when the value is an object, and Drop
decrements it exactly when the value is an object. -/
theorem c3_clone_drop_refcount : ∀ (v : Value) (h : Heap),
    dropHeap v (cloneHeap v h) = h ∧
    (v.is_object = true →
      cloneHeap v h v.value = h v.value + 1 ∧ dropHeap v h v.value = h v.value - 1) ∧
    (v.is_object = false → cloneHeap v h = h ∧ dropHeap v h = h) := by
  intro v h
  by_cases ho : v.is_object
  · refine ⟨?_, fun _ => by simp [cloneHeap, dropHeap, ho], fun hc => absurd ho (by simp [hc])⟩
    funext a
    by_cases ha : a = v.value <;> simp [cloneHeap, dropHeap, ho, ha]
  · simp [cloneHeap, dropHeap, ho]

end nanbox

namespace vm

/-! Embedding of crates/vm/src/lib.rs opcode handlers. Values as seen by the
dispatch loop; a float is identified by its 64-bit pattern, lists and dicts
by their contents. -/

inductive VmValue where
  | vnone
  | vbool (b : Bool)
  | vint (i : Int)
  | vfloat (bits : Nat)
  | vstr (s : String)
  | vlist (elems : List VmValue)
  | vdict (entries : List (String × VmValue))
deriving Repr

def VmValue.is_none : VmValue → Bool
  | .vnone => true
  | _ => false

def VmValue.as_bool : VmValue → Option Bool
  | .vbool b => some b
  | _ => Option.none

def VmValue.as_dict : VmValue → Option (List (String × VmValue))
  | .vdict entries => some entries
  | _ => Option.none

inductive ControlFlow where
  | Next
  | Jump (offset : Nat)
  | Loop (offset : Nat)
deriving DecidableEq, Repr

/-- Isolate::op_jump_if_false: requires the accumulator to be a bool; no
truthiness coercion is applied. -/
def op_jump_if_false (acc : VmValue) (offset : Nat) : Except Unit ControlFlow :=
  match acc.as_bool with
  | Option.none => .error ()
  | some true => .ok .Next
  | some false => .ok (.Jump offset)

/-- Modelled from the spec: the module `truth` (fn truthiness) of the vm
crate is not among the sources; per the spec, none, false, 0 and empty
values are falsy and every other value is truthy. A float is 0 when its bit
pattern is one of the two signed zeros. -/
def truthiness : VmValue → Bool
  | .vnone => false
  | .vbool b => b
  | .vint i => i != 0
  | .vfloat bits => !(bits == 0 || bits == 0x8000000000000000)
  | .vstr s => !s.isEmpty
  | .vlist elems => !elems.isEmpty
  | .vdict entries => !entries.isEmpty

/-- Isolate::op_unary_not: stores `Value::bool(truthiness(acc))` into the
accumulator. Note: the truthiness is not inverted by the handler. -/
def op_unary_not (acc : VmValue) : Except Unit VmValue :=
  .ok (.vbool (truthiness acc))

/-- Isolate::op_load_named_opt: early exit leaving the accumulator when it
is none; otherwise the accumulator must be a dict, and a missing key loads
none. -/
def op_load_named_opt (acc : VmValue) (name : String) : Except Unit VmValue :=
  if acc.is_none then .ok acc
  else
    match acc.as_dict with
    | Option.none => .error ()
    | some obj =>
      .ok (match List.lookup name obj with
        | some v => v
        | Option.none => .vnone)

/-- C4: the code of op_unary_not stores the truthiness of the accumulator
without inverting it: Not on none yields bool false (the claim states bool
true) and Not on int 1 yields bool true (the claim states bool false). -/
theorem c4_unary_not_stores_truthiness :
    op_unary_not .vnone = .ok (.vbool false) ∧
    op_unary_not (.vint 1) = .ok (.vbool true) ∧
    VmValue.vbool false ≠ VmValue.vbool true := by
  refine ⟨rfl, rfl, by simp⟩

/-- C10: JumpIfFalse applies no truthiness coercion: bool false jumps, bool
true falls through, and every non-bool accumulator (none, ints, objects,
...) is an error. -/
theorem c10_jump_if_false_no_coercion : ∀ offset : Nat,
    op_jump_if_false (.vbool false) offset = .ok (.Jump offset) ∧
    op_jump_if_false (.vbool true) offset = .ok .Next ∧
    (∀ acc : VmValue, (∀ b, acc ≠ .vbool b) → op_jump_if_false acc offset = .error ()) := by
  intro offset
  refine ⟨rfl, rfl, fun acc hb => ?_⟩
  cases acc with
  | vbool b => exact absurd rfl (hb b)
  | _ => rfl

/-- Closed instance of the JumpIfFalse theorem at offset 7 and accumulator
none. -/
theorem c10_jump_if_false_witness :
    op_jump_if_false (.vbool false) 7 = .ok (.Jump 7) ∧
    op_jump_if_false .vnone 7 = .error () := by
  refine ⟨(c10_jump_if_false_no_coercion 7).1, ?_⟩
  exact (c10_jump_if_false_no_coercion 7).2.2 .vnone (fun b h => by cases h)

end vm

namespace field

/-! Embedding of src/isolate/field.rs together with the Access impls in
src/. A class instance (Class, crates/runtime/src/value/object/class.rs)
carries a field map and a frozen flag; its field_get is a map lookup and
its field_set a map insert, neither can fail. A native class instance
(src/src/value/object/native.rs) reports is_frozen() = false, its
field_get first calls a registered getter (a native call that may fail)
and then falls back to the class methods, and its field_set requires a
registered setter (whose native call may also fail) and errors otherwise;
native callable bodies are opaque, so each accessor records the getter's
outcome and the setter's presence and outcome. Ints and none are not heap
objects. Plain function and bound-method values are heap objects whose
Access impls in src/ (NativeFunction, NativeClassMethod, UserData) take
every trait default; the defaulted bodies are not in src/, but each
outcome used below (set and bare get error, get_opt falls through to
none) is the same under any default: the default field_set errors, and a
default field_get yielding Ok(None) or Err makes set error under either
value of a defaulted is_frozen. -/

structure AccessorOf (α : Type) where
  getOk : Bool
  getVal : α
  hasSetter : Bool
  setOk : Bool

inductive FVal where
  | vnone
  | vint (i : Int)
  | vfn (id : Nat)
  | vmethod (receiver func : FVal)
  | vobj (fields : List (String × FVal)) (frozen : Bool) (bind : Bool)
  | vnative (accessors : List (String × AccessorOf FVal))
      (methods : List (String × Nat))

def FVal.is_object : FVal → Bool
  | .vobj _ _ _ => true
  | .vnative _ _ => true
  | _ => false

def FVal.is_none : FVal → Bool
  | .vnone => true
  | _ => false

/-- is_frozen per the impls in src/: a Class reports its flag and a
NativeClassInstance reports false. No theorem consults the remaining
kinds, whose trait-default value is not in src/. -/
def FVal.is_frozen : FVal → Bool
  | .vobj _ frozen _ => frozen
  | .vnative _ _ => false
  | _ => true

def is_fn_like : FVal → Bool
  | .vfn _ => true
  | .vmethod _ _ => true
  | _ => false

/-- Class::field_set on the field map: replace the value if the key is
present, append otherwise (IndexMap::insert). -/
def aset : List (String × FVal) → String → FVal → List (String × FVal)
  | [], k, v => [(k, v)]
  | (k0, v0) :: rest, k, v =>
    if k0 = k then (k, v) :: rest else (k0, v0) :: aset rest k v

/-- NativeClassInstance::field_get: the registered getter first (its
native call may fail), then the class methods (returned as callable
values). -/
def native_field_get (accessors : List (String × AccessorOf FVal))
    (methods : List (String × Nat)) (key : String) : Except Unit (Option FVal) :=
  match List.lookup key accessors with
  | some a => if a.getOk then .ok (some a.getVal) else .error ()
  | Option.none =>
    match List.lookup key methods with
    | some m => .ok (some (.vfn m))
    | Option.none => .ok Option.none

/-- NativeClassInstance::field_set: error unless a setter is registered
and its native call succeeds. -/
def native_field_set (accessors : List (String × AccessorOf FVal))
    (key : String) : Except Unit Unit :=
  match List.lookup key accessors with
  | some a =>
    if a.hasSetter then (if a.setOk then .ok () else .error ()) else .error ()
  | Option.none => .error ()

def exOk {ε α : Type} : Except ε α → Bool
  | .ok _ => true
  | .error _ => false

/-- field::set, returning the Result together with the (possibly mutated)
receiver: the receiver must be a heap object; field_get runs first and its
error propagates; the store happens when the field exists or the object is
not frozen. A native store goes through field_set, whose error propagates,
and changes the opaque user data rather than the receiver cell. -/
def set (receiver : FVal) (key : String) (value : FVal) :
    Except Unit Unit × FVal :=
  match receiver with
  | .vobj fields frozen bind =>
    if (List.lookup key fields).isSome || !frozen then
      (.ok (), .vobj (aset fields key value) frozen bind)
    else (.error (), receiver)
  | .vnative accessors methods =>
    (match native_field_get accessors methods key with
     | .error _ => (.error (), receiver)
     | .ok _ =>
       -- is_frozen() = false, so the store proceeds whatever field_get found
       match native_field_set accessors key with
       | .ok _ => (.ok (), receiver)
       | .error _ => (.error (), receiver))
  | _ => (.error (), receiver)

/-- field::get: error on a non-object receiver and on a missing field;
native getter errors propagate; should_bind_methods() is the bind flag for
a Class and true for a NativeClassInstance. -/
def get (receiver : FVal) (key : String) : Except Unit FVal :=
  match receiver with
  | .vobj fields frozen bind =>
    (match List.lookup key fields with
      | some value =>
        if bind && is_fn_like value then .ok (.vmethod (.vobj fields frozen bind) value)
        else .ok value
      | Option.none => .error ())
  | .vnative accessors methods =>
    (match native_field_get accessors methods key with
     | .error _ => .error ()
     | .ok (some value) =>
       if is_fn_like value then .ok (.vmethod (.vnative accessors methods) value)
       else .ok value
     | .ok Option.none => .error ())
  | _ => .error ()

/-- field::get_opt: early exit with none when the receiver is none; the
cases that make `get` fail with a missing field or a non-object receiver
fall through to Ok(none); a native getter error still propagates. -/
def get_opt (receiver : FVal) (key : String) : Except Unit FVal :=
  if receiver.is_none then .ok .vnone
  else
    match receiver with
    | .vobj fields frozen bind =>
      (match List.lookup key fields with
        | some value =>
          if bind && is_fn_like value then .ok (.vmethod (.vobj fields frozen bind) value)
          else .ok value
        | Option.none => .ok .vnone)
    | .vnative accessors methods =>
      (match native_field_get accessors methods key with
       | .error _ => .error ()
       | .ok (some value) =>
         if is_fn_like value then .ok (.vmethod (.vnative accessors methods) value)
         else .ok value
       | .ok Option.none => .ok .vnone)
    | _ => .ok .vnone

/-- C6 counterexample: a native class instance is never frozen and here the
field even exists (its registered getter returns int 7), yet the store
errors because no setter is registered — refuting "storing a field
succeeds when the field already exists or the object is not frozen" and
with it the claimed exact error condition. -/
theorem c6_counterexample_native_store :
    (set (.vnative [("x", ⟨true, .vint 7, false, false⟩)] []) "x" (.vint 1)).1 =
      Except.error () ∧
    native_field_get [("x", ⟨true, FVal.vint 7, false, false⟩)] [] "x" =
      .ok (some (.vint 7)) ∧
    FVal.is_frozen (.vnative [("x", ⟨true, .vint 7, false, false⟩)] []) = false :=
  ⟨rfl, rfl, rfl⟩

/-- C6 amended: on a class instance (map-backed object) a store succeeds
exactly when the field exists or the object is not frozen and errors,
leaving the receiver unchanged, exactly when it is frozen with the field
missing; on a native class instance — never frozen — the store's outcome
is its field_set: it errors without a registered setter or on a failing
setter or getter call; non-object receivers always error. -/
theorem c6_store_field : ∀ (receiver : FVal) (key : String) (value : FVal),
    (∀ fields frozen bind, receiver = .vobj fields frozen bind →
      (((List.lookup key fields).isSome = true ∨ frozen = false) →
        (set receiver key value).1 = .ok () ∧
        (set receiver key value).2 = .vobj (aset fields key value) frozen bind) ∧
      (List.lookup key fields = Option.none → frozen = true →
        (set receiver key value).1 = .error () ∧ (set receiver key value).2 = receiver)) ∧
    (∀ accessors methods, receiver = .vnative accessors methods →
      receiver.is_frozen = false ∧
      (set receiver key value).2 = receiver ∧
      (exOk (native_field_get accessors methods key) = true →
        (set receiver key value).1 = native_field_set accessors key) ∧
      (exOk (native_field_get accessors methods key) = false →
        (set receiver key value).1 = .error ()) ∧
      (∀ a, List.lookup key accessors = some a → a.hasSetter = false →
        (set receiver key value).1 = .error ()) ∧
      (List.lookup key accessors = Option.none →
        (set receiver key value).1 = .error ())) ∧
    (receiver.is_object = false →
      (set receiver key value).1 = .error () ∧ (set receiver key value).2 = receiver) := by
  intro receiver key value
  refine ⟨?_, ?_, ?_⟩
  · intro fields frozen bind hrec
    subst hrec
    constructor
    · intro hok
      have hcond : ((List.lookup key fields).isSome || !frozen) = true := by
        rcases hok with h | h <;> simp [h]
      simp [set, hcond]
    · intro hmiss hfroz
      have hcond : ((List.lookup key fields).isSome || !frozen) = false := by
        simp [hmiss, hfroz]
      simp [set, hcond]
  · intro accessors methods hrec
    subst hrec
    have hsetout : ∀ hg, native_field_get accessors methods key = .ok hg →
        (set (.vnative accessors methods) key value).1 =
          native_field_set accessors key := by
      intro hg hgq
      cases hs : native_field_set accessors key with
      | ok u => simp [set, hgq, hs]
      | error e => simp [set, hgq, hs]
    refine ⟨rfl, ?_, ?_, ?_, ?_, ?_⟩
    · cases hgq : native_field_get accessors methods key with
      | ok hg =>
        cases hs : native_field_set accessors key with
        | ok u => simp [set, hgq, hs]
        | error e => simp [set, hgq, hs]
      | error e => simp [set, hgq]
    · intro hok
      cases hgq : native_field_get accessors methods key with
      | ok hg => exact hsetout hg hgq
      | error e => rw [hgq] at hok; simp [exOk] at hok
    · intro hbad
      cases hgq : native_field_get accessors methods key with
      | ok hg => rw [hgq] at hbad; simp [exOk] at hbad
      | error e => simp [set, hgq]
    · intro a ha hnoset
      have hs : native_field_set accessors key = .error () := by
        simp [native_field_set, ha, hnoset]
      cases hgq : native_field_get accessors methods key with
      | ok hg => rw [hsetout hg hgq, hs]
      | error e => simp [set, hgq]
    · intro ha
      have hs : native_field_set accessors key = .error () := by
        simp [native_field_set, ha]
      cases hgq : native_field_get accessors methods key with
      | ok hg => rw [hsetout hg hgq, hs]
      | error e => simp [set, hgq]
  · intro hno
    cases receiver <;> simp_all [set, FVal.is_object]

/-- Closed instance of the StoreField theorem: a frozen class instance
lacking the key rejects the store unchanged, and a native class instance
without accessors rejects it although it is not frozen. -/
theorem c6_store_field_witness :
    (set (.vobj [("a", .vint 1)] true false) "b" (.vint 2)).1 = .error () ∧
    (set (.vobj [("a", .vint 1)] true false) "b" (.vint 2)).2 =
      .vobj [("a", .vint 1)] true false ∧
    (set (.vnative [] []) "x" (.vint 2)).1 = .error () := by
  have h1 := ((c6_store_field (.vobj [("a", .vint 1)] true false) "b"
    (.vint 2)).1 [("a", FVal.vint 1)] true false rfl).2 rfl rfl
  have h2 := (c6_store_field (.vnative [] []) "x" (.vint 2)).2.1 [] [] rfl
  exact ⟨h1.1, h1.2, h2.2.2.2.2.2 rfl⟩

end field

namespace emit

/-! Embedding of src/emit/stmt.rs (emit_var_stmt). Module variables are a
slot list; the slot of a name is its position. -/

inductive Instr where
  | StoreGlobal (name : String)
  | StoreModuleVar (index : Nat)
  | Store (register : Nat)
deriving DecidableEq, Repr

def Instr.isStoreModuleVar : Instr → Bool
  | .StoreModuleVar _ => true
  | _ => false

def indexOfName : List String → String → Option Nat
  | [], _ => Option.none
  | v :: rest, name => if v = name then some 0 else (indexOfName rest name).map (· + 1)

/-- Modelled from the spec: `declare_module_var` of the src emitter is not
among the sources; per the spec, a let at module top level reuses the
existing slot for the name if one exists and otherwise allocates the next
index. -/
def declare_module_var (vars : List String) (name : String) : Nat × List String :=
  match indexOfName vars name with
  | some i => (i, vars)
  | Option.none => (vars.length, vars ++ [name])

/-- emit_var_stmt: at global scope the root module stores a string-keyed
global and any other module stores a module variable; otherwise a register
is allocated (its index is the `register` argument) and a Store into it is
emitted. -/
def emit_var_stmt (is_global_scope is_root : Bool) (vars : List String)
    (name : String) (register : Nat) : Instr × List String :=
  if is_global_scope then
    if is_root then (.StoreGlobal name, vars)
    else
      let p := declare_module_var vars name
      (.StoreModuleVar p.1, p.2)
  else
    (.Store register, vars)

theorem indexOfName_append_self (vars : List String) (name : String)
    (h : indexOfName vars name = Option.none) :
    indexOfName (vars ++ [name]) name = some vars.length := by
  induction vars with
  | nil => simp [indexOfName]
  | cons v rest ih =>
    by_cases he : v = name
    · simp [indexOfName, he] at h
    · simp only [indexOfName, he, if_false] at h
      have h2 : indexOfName rest name = Option.none := by
        cases hi : indexOfName rest name with
        | none => rfl
        | some k => rw [hi] at h; simp at h
      simp [indexOfName, he, ih h2, List.length_cons]

end emit

namespace vm3

/-! Embedding of ex/vm3/src/op/emit.rs: FunctionState::reg,
FunctionState::free and FunctionState::declare_var (top-level branch). -/

structure Registers where
  current : Nat
  total : Nat
deriving DecidableEq, Repr

/-- FunctionState::reg: errors when the register counter has reached
u8::MAX (255); otherwise hands out the current index and bumps the
counter and the high-water mark. -/
def reg (name : String) (r : Registers) : Except String (Nat × Registers) :=
  if r.current == 255 then
    .error ("function `" ++ name ++ "` uses too many registers, maximum is 255")
  else
    .ok (r.current, { current := r.current + 1, total := max (r.current + 1) r.total })

/-- FunctionState::free. -/
def free (r : Registers) (register : Nat) : Registers := { r with current := register }

/-- Allocate n registers in sequence: what compiling a function body with n
simultaneously live virtual registers performs. -/
def allocN : Nat → Registers → Except String Registers
  | 0, r => .ok r
  | n + 1, r =>
    match reg "f" r with
    | .ok p => allocN n p.2
    | .error e => .error e

def isOkE {α : Type} : Except String α → Bool
  | .ok _ => true
  | .error _ => false

inductive Op where
  | set_mvar (register : Nat) (idx : Nat)
deriving DecidableEq, Repr

/-- FunctionState::declare_var, top-level branch: the value is already in
`register`; the module-variable slot for `name` is reused when present
(entry().or_insert), otherwise the next index is taken; set_mvar is
emitted and the register freed. The var map is an association list. -/
def declare_var (vars : List (String × Nat)) (name : String) (register : Nat)
    (r : Registers) : Except String (Op × List (String × Nat) × Registers) :=
  let last := vars.length
  if last > 65535 then .error "too many global variables, maximum is 65535"
  else
    match List.lookup name vars with
    | some idx => .ok (.set_mvar register idx, vars, free r register)
    | Option.none => .ok (.set_mvar register last, vars ++ [(name, last)], free r register)

theorem lookup_append_self (vars : List (String × Nat)) (name : String) (v : Nat)
    (h : List.lookup name vars = Option.none) :
    List.lookup name (vars ++ [(name, v)]) = some v := by
  induction vars with
  | nil => simp [List.lookup]
  | cons p rest ih =>
    rw [List.cons_append]
    by_cases he : (name == p.1) = true
    · simp [List.lookup, he] at h
    · rw [Bool.not_eq_true] at he
      simp only [List.lookup, he] at h ⊢
      exact ih h

end vm3

namespace classes

/-! Embedding of crates/runtime/src/value/object/class.rs (ClassDef::new).
Dict is an insertion-ordered map modelled as an association list keyed by
method/field name; the stored Values are opaque ids. The downcast of the
parent argument to a ClassDef is modelled by an environment mapping the
argument's id to the parent's dicts. -/

structure ClassDefData where
  methods : List (String × Nat)
  fields : List (String × Nat)

structure ClassDesc where
  is_derived : Bool
  methods : List String
  fields : List String

/-- Dict::insert: replace the binding in place when the key is present,
append otherwise. -/
def dictInsert : List (String × Nat) → String → Nat → List (String × Nat)
  | [], k, v => [(k, v)]
  | (k0, v0) :: rest, k, v =>
    if k0 = k then (k, v) :: rest else (k0, v0) :: dictInsert rest k v

/-- Dict::entry(k).or_insert(v): insert only when the key is absent. -/
def entryOrInsert (d : List (String × Nat)) (k : String) (v : Nat) :
    List (String × Nat) :=
  if (List.lookup k d).isSome then d else d ++ [(k, v)]

/-- The methods dict built from the descriptor's method names zipped with
the argument window, before inheritance. -/
def childMethods (desc : ClassDesc) (args : List Nat) : List (String × Nat) :=
  let methods_offset := if desc.is_derived then 1 else 0
  (desc.methods.zip (args.drop methods_offset)).foldl
    (fun d kv => dictInsert d kv.1 kv.2) []

/-- The fields dict built from the descriptor's field names zipped with the
argument window, before inheritance. -/
def childFields (desc : ClassDesc) (args : List Nat) : List (String × Nat) :=
  let methods_offset := if desc.is_derived then 1 else 0
  let fields_offset := methods_offset + desc.methods.length
  (desc.fields.zip (args.drop fields_offset)).foldl
    (fun d kv => dictInsert d kv.1 kv.2) []

/-- ClassDef::new: build the own dicts from the argument window, then
inherit every parent method and field default absent from them. -/
def classDefNew (env : Nat → ClassDefData) (desc : ClassDesc) (args : List Nat) :
    ClassDefData :=
  let parent_offset := 0
  let parent :=
    if desc.is_derived then some (env (args.getD parent_offset 0)) else Option.none
  let methods := childMethods desc args
  let fields := childFields desc args
  let methods := match parent with
    | some p => p.methods.foldl (fun d kv => entryOrInsert d kv.1 kv.2) methods
    | Option.none => methods
  let fields := match parent with
    | some p => p.fields.foldl (fun d kv => entryOrInsert d kv.1 kv.2) fields
    | Option.none => fields
  ⟨methods, fields⟩

theorem lookup_cons (k : String) (p : String × Nat) (rest : List (String × Nat)) :
    List.lookup k (p :: rest) = if k = p.1 then some p.2 else List.lookup k rest := by
  by_cases h : k = p.1
  · rw [if_pos h]
    cases p
    subst h
    simp [List.lookup]
  · rw [if_neg h]
    cases p
    simp only [List.lookup]
    rw [show (k == _) = false from beq_eq_false_iff_ne.mpr h]

theorem lookup_append_left {d e : List (String × Nat)} {k : String}
    (h : (List.lookup k d).isSome) : List.lookup k (d ++ e) = List.lookup k d := by
  induction d with
  | nil => simp at h
  | cons p rest ih =>
    rw [List.cons_append, lookup_cons, lookup_cons]
    rw [lookup_cons] at h
    by_cases he : k = p.1
    · simp [he]
    · rw [if_neg he] at h ⊢
      rw [if_neg he]
      exact ih h

theorem lookup_append_none {d e : List (String × Nat)} {k : String}
    (h : List.lookup k d = Option.none) : List.lookup k (d ++ e) = List.lookup k e := by
  induction d with
  | nil => simp
  | cons p rest ih =>
    rw [List.cons_append, lookup_cons]
    rw [lookup_cons] at h
    by_cases he : k = p.1
    · rw [if_pos he] at h
      exact absurd h (by simp)
    · rw [if_neg he] at h
      rw [if_neg he]
      exact ih h

theorem lookup_entryOrInsert_some {d : List (String × Nat)} {k : String}
    (k0 : String) (v : Nat) (h : (List.lookup k d).isSome) :
    List.lookup k (entryOrInsert d k0 v) = List.lookup k d := by
  unfold entryOrInsert
  split
  · rfl
  · exact lookup_append_left h

theorem lookup_entryOrInsert_none {d : List (String × Nat)} {k k0 : String} (v : Nat)
    (h : List.lookup k d = Option.none) (hne : k0 ≠ k) :
    List.lookup k (entryOrInsert d k0 v) = Option.none := by
  unfold entryOrInsert
  split
  · exact h
  · rw [lookup_append_none h, lookup_cons, if_neg (fun hk => hne hk.symm)]
    rfl

theorem lookup_entryOrInsert_self {d : List (String × Nat)} {k : String} (v : Nat)
    (h : List.lookup k d = Option.none) :
    List.lookup k (entryOrInsert d k v) = some v := by
  unfold entryOrInsert
  rw [if_neg (by simp [h]), lookup_append_none h, lookup_cons, if_pos rfl]

theorem lookup_foldl_entry_preserve (l : List (String × Nat))
    {d : List (String × Nat)} {k : String} (h : (List.lookup k d).isSome) :
    List.lookup k (l.foldl (fun d kv => entryOrInsert d kv.1 kv.2) d) =
      List.lookup k d := by
  induction l generalizing d with
  | nil => rfl
  | cons kv rest ih =>
    have hstep := lookup_entryOrInsert_some kv.1 kv.2 h
    rw [List.foldl_cons, ih (by rw [hstep]; exact h), hstep]

theorem lookup_foldl_entry_absent (l : List (String × Nat))
    {d : List (String × Nat)} {k : String} (h : List.lookup k d = Option.none) :
    List.lookup k (l.foldl (fun d kv => entryOrInsert d kv.1 kv.2) d) =
      List.lookup k l := by
  induction l generalizing d with
  | nil => simp [h]
  | cons kv rest ih =>
    rw [List.foldl_cons, lookup_cons]
    by_cases he : kv.1 = k
    · rw [if_pos he.symm]
      have hself : List.lookup k (entryOrInsert d kv.1 kv.2) = some kv.2 := by
        rw [he]
        exact lookup_entryOrInsert_self kv.2 h
      rw [lookup_foldl_entry_preserve rest (by rw [hself]; rfl), hself]
    · rw [if_neg (fun hk => he hk.symm)]
      exact ih (lookup_entryOrInsert_none kv.2 h he)

theorem lookup_dictInsert (d : List (String × Nat)) (k0 k : String) (v : Nat) :
    List.lookup k (dictInsert d k0 v) =
      if k0 = k then some v else List.lookup k d := by
  induction d with
  | nil =>
    show List.lookup k [(k0, v)] = _
    rw [lookup_cons]
    by_cases he : k0 = k
    · subst he
      simp
    · have he2 : ¬ k = k0 := fun h => he h.symm
      simp [he, he2]
  | cons p rest ih =>
    rcases p with ⟨pk, pv⟩
    simp only [dictInsert]
    by_cases he : pk = k0
    · subst he
      rw [if_pos rfl, lookup_cons, lookup_cons]
      by_cases hk : k = pk
      · subst hk
        simp
      · have hk2 : ¬ pk = k := fun h => hk h.symm
        simp [hk, hk2]
    · rw [if_neg he, lookup_cons, lookup_cons, ih]
      by_cases hp : k = pk
      · subst hp
        have hne : ¬ k0 = k := fun h => he h.symm
        simp [hne]
      · simp [hp]

theorem lookup_foldl_dictInsert_mem (l : List (String × Nat))
    {d : List (String × Nat)} {k : String}
    (h : k ∈ l.map Prod.fst ∨ (List.lookup k d).isSome) :
    (List.lookup k (l.foldl (fun d kv => dictInsert d kv.1 kv.2) d)).isSome := by
  induction l generalizing d with
  | nil =>
    rcases h with h | h
    · simp at h
    · exact h
  | cons kv rest ih =>
    rw [List.foldl_cons]
    rcases h with h | h
    · rw [List.map_cons, List.mem_cons] at h
      rcases h with h | h
      · exact ih (Or.inr (by rw [lookup_dictInsert, if_pos h.symm]; simp))
      · exact ih (Or.inl h)
    · refine ih (Or.inr ?_)
      rw [lookup_dictInsert]
      split <;> simp_all

theorem lookup_foldl_dictInsert_absent (l : List (String × Nat))
    {d : List (String × Nat)} {k : String} (h : k ∉ l.map Prod.fst) :
    List.lookup k (l.foldl (fun d kv => dictInsert d kv.1 kv.2) d) =
      List.lookup k d := by
  induction l generalizing d with
  | nil => rfl
  | cons kv rest ih =>
    rw [List.map_cons, List.mem_cons] at h
    push_neg at h
    rw [List.foldl_cons, ih h.2, lookup_dictInsert, if_neg (fun he => h.1 he.symm)]

/-- C8: for a derived class, method lookup in the built ClassDef prefers the
child's definition (the methods dict built from the argument window) for
every name the child defines, parent field defaults absent from the child
are inherited, those the child defines are shadowed by the child's value,
and parent methods absent from the child are inherited too. -/
theorem c8_classdef_inheritance (env : Nat → ClassDefData) (desc : ClassDesc)
    (args : List Nat) (hder : desc.is_derived = true)
    (hlen : 1 + desc.methods.length + desc.fields.length ≤ args.length) :
    (∀ name, name ∈ desc.methods →
      List.lookup name (classDefNew env desc args).methods =
        List.lookup name (childMethods desc args) ∧
      (List.lookup name (childMethods desc args)).isSome) ∧
    (∀ name v, List.lookup name (env (args.getD 0 0)).methods = some v →
      name ∉ desc.methods →
      List.lookup name (classDefNew env desc args).methods = some v) ∧
    (∀ name, name ∈ desc.fields →
      List.lookup name (classDefNew env desc args).fields =
        List.lookup name (childFields desc args) ∧
      (List.lookup name (childFields desc args)).isSome) ∧
    (∀ name v, List.lookup name (env (args.getD 0 0)).fields = some v →
      name ∉ desc.fields →
      List.lookup name (classDefNew env desc args).fields = some v) := by
  have hnewm : (classDefNew env desc args).methods =
      (env (args.getD 0 0)).methods.foldl (fun d kv => entryOrInsert d kv.1 kv.2)
        (childMethods desc args) := by
    simp [classDefNew, hder]
  have hnewf : (classDefNew env desc args).fields =
      (env (args.getD 0 0)).fields.foldl (fun d kv => entryOrInsert d kv.1 kv.2)
        (childFields desc args) := by
    simp [classDefNew, hder]
  have hmkeys : (desc.methods.zip (args.drop (if desc.is_derived then 1 else 0))).map
      Prod.fst = desc.methods := by
    apply List.map_fst_zip
    simp [hder, List.length_drop]
    omega
  have hfkeys : (desc.fields.zip (args.drop
      ((if desc.is_derived then 1 else 0) + desc.methods.length))).map
      Prod.fst = desc.fields := by
    apply List.map_fst_zip
    simp [hder, List.length_drop]
    omega
  refine ⟨fun name hm => ?_, fun name v hpv hnm => ?_, fun name hf => ?_,
    fun name v hpv hnf => ?_⟩
  · have hsome : (List.lookup name (childMethods desc args)).isSome := by
      unfold childMethods
      exact lookup_foldl_dictInsert_mem _ (Or.inl (by rw [hmkeys]; exact hm))
    exact ⟨by rw [hnewm, lookup_foldl_entry_preserve _ hsome], hsome⟩
  · have habs : List.lookup name (childMethods desc args) = Option.none := by
      unfold childMethods
      rw [lookup_foldl_dictInsert_absent _ (by rw [hmkeys]; exact hnm)]
      rfl
    rw [hnewm, lookup_foldl_entry_absent _ habs, hpv]
  · have hsome : (List.lookup name (childFields desc args)).isSome := by
      unfold childFields
      exact lookup_foldl_dictInsert_mem _ (Or.inl (by rw [hfkeys]; exact hf))
    exact ⟨by rw [hnewf, lookup_foldl_entry_preserve _ hsome], hsome⟩
  · have habs : List.lookup name (childFields desc args) = Option.none := by
      unfold childFields
      rw [lookup_foldl_dictInsert_absent _ (by rw [hfkeys]; exact hnf)]
      rfl
    rw [hnewf, lookup_foldl_entry_absent _ habs, hpv]

/-- Closed instance of the ClassDef inheritance theorem: a derived class
with one method "m" and one field "f" shadows the parent's "m" and "f" and
inherits the parent's extra field default "g". -/
theorem c8_classdef_inheritance_witness :
    List.lookup "m" (classDefNew
        (fun _ => ⟨[("m", 100), ("n", 101)], [("f", 102), ("g", 103)]⟩)
        ⟨true, ["m"], ["f"]⟩ [0, 1, 2]).methods = some 1 ∧
    List.lookup "g" (classDefNew
        (fun _ => ⟨[("m", 100), ("n", 101)], [("f", 102), ("g", 103)]⟩)
        ⟨true, ["m"], ["f"]⟩ [0, 1, 2]).fields = some 103 ∧
    List.lookup "f" (classDefNew
        (fun _ => ⟨[("m", 100), ("n", 101)], [("f", 102), ("g", 103)]⟩)
        ⟨true, ["m"], ["f"]⟩ [0, 1, 2]).fields = some 2 := by
  have h := c8_classdef_inheritance
    (fun _ => ⟨[("m", 100), ("n", 101)], [("f", 102), ("g", 103)]⟩)
    ⟨true, ["m"], ["f"]⟩ [0, 1, 2] rfl (by norm_num)
  refine ⟨?_, ?_, ?_⟩
  · rw [(h.1 "m" (by simp)).1]
    rfl
  · exact h.2.2.2 "g" 103 rfl (by simp)
  · rw [(h.2.2.1 "f" (by simp)).1]
    rfl

end classes

namespace regalloc

/-! Embedding of src/emit/regalloc.rs. An interval records the virtual
register index and its live range in event-counter units; `end` is a
reserved word in Lean, so the field is called `stop`. The BinaryHeap of
Reverse registers is a multiset from which the minimum is popped; the
HashMap of active intervals is an association list (alloc gives every
interval a distinct index, so keyed insertion is an append). -/

structure Interval where
  index : Nat
  start : Nat
  stop : Nat
deriving DecidableEq, Repr

instance : Inhabited Interval := ⟨⟨0, 0, 0⟩⟩

structure LSState where
  free : List Nat
  active : List (Interval × Nat)
  registers : Nat
  mapping : List Nat
deriving Repr

def regsOf (active : List (Interval × Nat)) : List Nat := active.map Prod.snd

/-- expire_old_intervals: iterating active in order of increasing end point
and returning at the first interval with end ≥ start removes exactly the
intervals whose end precedes the new start; their registers go back to the
free pool. -/
def expireOldIntervals (i : Interval) (s : LSState) : LSState :=
  { s with
    active := s.active.filter (fun j => decide (i.start ≤ j.1.stop)),
    free := s.free ++
      ((s.active.filter (fun j => decide (j.1.stop < i.start))).map Prod.snd) }

/-- Popping the BinaryHeap<Reverse<usize>>: remove the minimum element. -/
def popMin (l : List Nat) : Option (Nat × List Nat) :=
  match l.min? with
  | some m => some (m, l.erase m)
  | Option.none => Option.none

/-- allocate: a free register if one exists, else a fresh one. -/
def allocate (s : LSState) : Nat × LSState :=
  match popMin s.free with
  | some p => (p.1, { s with free := p.2 })
  | Option.none => (s.registers, { s with registers := s.registers + 1 })

/-- The loop body of linear_scan for one interval: expire, allocate, record
the interval as active and insert its register into the mapping at the
interval's index (Vec::insert). -/
def lsStep (s : LSState) (i : Interval) : LSState :=
  let s1 := expireOldIntervals i s
  let r := (allocate s1).1
  let s2 := (allocate s1).2
  { s2 with
    active := s2.active ++ [(i, r)],
    mapping := s2.mapping.insertIdx i.index r }

def initState : LSState := ⟨[], [], 0, []⟩

/-- linear_scan: sort the intervals by increasing start point and fold the
loop body, returning the physical register count and the mapping. -/
def linear_scan (intervals : List Interval) : Nat × List Nat :=
  let intervals_by_start := List.insertionSort (fun a b => a.start ≤ b.start) intervals
  let s := intervals_by_start.foldl lsStep initState
  (s.registers, s.mapping)

/-- The state reached after processing the first k intervals in order. -/
def processed (xs : List Interval) (k : Nat) : LSState :=
  (xs.take k).foldl lsStep initState

/-- The invariant maintained by the linear-scan loop over a start-sorted,
index-identified interval list: mapping length, register bounds, no
physical register is simultaneously free and active or doubly active,
every still-overlapping processed interval is active with its recorded
register, and overlapping processed intervals got distinct registers. -/
structure LSInv (xs : List Interval) (k : Nat) (s : LSState) : Prop where
  maplen : s.mapping.length = k
  freeLt : ∀ r ∈ s.free, r < s.registers
  activeLt : ∀ p ∈ s.active, p.2 < s.registers
  nodup : (s.free ++ regsOf s.active).Nodup
  mapLt : ∀ r ∈ s.mapping, r < s.registers
  cover : ∀ t, t < k →
    (xs.getD (k - 1) default).start ≤ (xs.getD t default).stop →
    ((xs.getD t default), s.mapping.getD t 0) ∈ s.active
  ovdist : ∀ p q, p < q → q < k →
    (xs.getD q default).start ≤ (xs.getD p default).stop →
    s.mapping.getD p 0 ≠ s.mapping.getD q 0

theorem nat_min_eq_or (a b : Nat) : min a b = a ∨ min a b = b := by omega

theorem lsGetD_append_lt (l e : List Nat) (t : Nat) (h : t < l.length) :
    (l ++ e).getD t 0 = l.getD t 0 := by
  induction l generalizing t with
  | nil => simp at h
  | cons x rest ih =>
    cases t with
    | zero => rfl
    | succ n => exact ih n (by simpa using h)

theorem lsGetD_append_length (l : List Nat) (r : Nat) :
    (l ++ [r]).getD l.length 0 = r := by
  induction l with
  | nil => rfl
  | cons x rest ih =>
    simp only [List.cons_append, List.length_cons, List.getD_cons_succ]
    exact ih

theorem expire_spec (i : Interval) (s : LSState) :
    (expireOldIntervals i s).mapping = s.mapping ∧
    (expireOldIntervals i s).registers = s.registers ∧
    List.Perm (s.free ++ regsOf s.active)
      ((expireOldIntervals i s).free ++ regsOf (expireOldIntervals i s).active) ∧
    (∀ p ∈ (expireOldIntervals i s).active, p ∈ s.active) ∧
    (∀ p ∈ s.active, i.start ≤ p.1.stop → p ∈ (expireOldIntervals i s).active) := by
  refine ⟨rfl, rfl, ?_, ?_, ?_⟩
  · show List.Perm (s.free ++ regsOf s.active)
      ((s.free ++ _) ++ regsOf (s.active.filter _))
    rw [List.append_assoc]
    apply List.Perm.append_left
    have hneg : ∀ j ∈ s.active,
        (fun j : Interval × Nat => decide (i.start ≤ j.1.stop)) j =
          (fun j : Interval × Nat => !(decide (j.1.stop < i.start))) j := by
      intro j _
      by_cases h : i.start ≤ j.1.stop
      · simp [h, Nat.not_lt.mpr h]
      · simp [h, Nat.not_le.mp h]
    have hkeep : s.active.filter (fun j => decide (i.start ≤ j.1.stop)) =
        s.active.filter (fun j => !(decide (j.1.stop < i.start))) :=
      List.filter_congr hneg
    have hperm := List.filter_append_perm
      (fun j : Interval × Nat => decide (j.1.stop < i.start)) s.active
    show List.Perm (regsOf s.active) _
    rw [regsOf, regsOf, hkeep, ← List.map_append]
    exact (hperm.map Prod.snd).symm
  · intro p hp
    exact List.mem_of_mem_filter hp
  · intro p hp hle
    exact List.mem_filter.mpr ⟨hp, by simpa using hle⟩

theorem allocate_spec (s : LSState)
    (hnd : (s.free ++ regsOf s.active).Nodup)
    (hf : ∀ x ∈ s.free, x < s.registers)
    (ha : ∀ p ∈ s.active, p.2 < s.registers) :
    (allocate s).2.active = s.active ∧
    (allocate s).2.mapping = s.mapping ∧
    s.registers ≤ (allocate s).2.registers ∧
    (allocate s).1 < (allocate s).2.registers ∧
    (∀ x ∈ (allocate s).2.free, x < (allocate s).2.registers) ∧
    ((allocate s).2.free ++ (regsOf s.active ++ [(allocate s).1])).Nodup := by
  unfold allocate popMin
  cases hm : s.free.min? with
  | none =>
    have hfree : s.free = [] := List.min?_eq_none_iff.mp hm
    have hreg : regsOf s.active |>.Nodup := by
      rw [hfree] at hnd
      simpa using hnd
    refine ⟨rfl, rfl, Nat.le_succ _, Nat.lt_succ_self _, ?_, ?_⟩
    · intro x hx
      simp [hfree] at hx
    · simp only [hfree, List.nil_append]
      refine hreg.append (List.nodup_singleton _) ?_
      intro x hx hx1
      rw [List.mem_singleton] at hx1
      subst hx1
      rcases List.mem_map.mp hx with ⟨p, hp, hps⟩
      exact absurd (hps ▸ ha p hp) (lt_irrefl _)
  | some m =>
    have hmem : m ∈ s.free := List.min?_mem nat_min_eq_or hm
    have hperm1 := List.perm_cons_erase hmem
    refine ⟨rfl, rfl, le_refl _, hf m hmem, ?_, ?_⟩
    · intro x hx
      exact hf x (List.mem_of_mem_erase hx)
    · have hbig : List.Perm (s.free ++ regsOf s.active)
          (s.free.erase m ++ (regsOf s.active ++ [m])) := by
        rw [← List.append_assoc]
        exact (hperm1.append_right _).trans (@List.perm_append_comm _ [m] _)
      exact hbig.nodup hnd

theorem lsStep_inv (xs : List Interval)
    (hidx : ∀ t, t < xs.length → (xs.getD t default).index = t)
    (hmono : ∀ q, q < xs.length → ∀ p, p < q →
      (xs.getD p default).start < (xs.getD q default).start)
    (k : Nat) (hk : k < xs.length) (s : LSState) (inv : LSInv xs k s) :
    LSInv xs (k + 1) (lsStep s (xs.getD k default)) := by
  obtain ⟨hm1, hr1, hperm, hsub, hkeep⟩ := expire_spec (xs.getD k default) s
  obtain ⟨hact2, hmap2, hreg2, hrlt2, hf2, hnd2⟩ :=
    allocate_spec (expireOldIntervals (xs.getD k default) s)
      (hperm.nodup inv.nodup)
      (by
        intro x hx
        rw [hr1]
        have hx2 : x ∈ s.free ++ regsOf s.active :=
          (hperm.mem_iff).mpr (List.mem_append_left _ hx)
        rcases List.mem_append.mp hx2 with h | h
        · exact inv.freeLt x h
        · rcases List.mem_map.mp h with ⟨p, hp, hps⟩
          exact hps ▸ inv.activeLt p hp)
      (by
        intro p hp
        rw [hr1]
        exact inv.activeLt p (hsub p hp))
  set i := xs.getD k default with hidef
  set s1 := expireOldIntervals i s with hs1
  set r := (allocate s1).1 with hrdef
  set s2 := (allocate s1).2 with hs2
  have hidxk : i.index = k := hidx k hk
  have hmap' : s2.mapping.insertIdx i.index r = s.mapping ++ [r] := by
    rw [hmap2, hm1, hidxk, ← inv.maplen]
    exact List.insertIdx_length_self _ _
  have hstep2 : lsStep s i =
      ⟨s2.free, s2.active ++ [(i, r)], s2.registers, s.mapping ++ [r]⟩ := by
    show (⟨s2.free, s2.active ++ [(i, r)], s2.registers,
      s2.mapping.insertIdx i.index r⟩ : LSState) = _
    rw [hmap']
  have hregs_mono : s.registers ≤ s2.registers := hr1 ▸ hreg2
  have hcover1 : ∀ t, t < k → i.start ≤ (xs.getD t default).stop →
      ((xs.getD t default), s.mapping.getD t 0) ∈ s1.active := by
    intro t ht hts
    have hk1 : k - 1 < k := Nat.sub_lt (Nat.pos_of_ne_zero (by omega)) Nat.one_pos
    have hmem : ((xs.getD t default), s.mapping.getD t 0) ∈ s.active := by
      apply inv.cover t ht
      by_cases hek : k - 1 = t
      · rw [hek]
        calc (xs.getD t default).start ≤ i.start := by
              by_cases het : t = k
              · omega
              · exact le_of_lt (hmono k hk t (by omega))
          _ ≤ (xs.getD t default).stop := hts
      · exact le_trans (le_of_lt (hmono k hk (k - 1) hk1)) hts
    exact hkeep _ hmem hts
  rw [hstep2]
  refine ⟨?_, ?_, ?_, ?_, ?_, ?_, ?_⟩
  · simp [inv.maplen]
  · exact hf2
  · intro p hp
    rcases List.mem_append.mp hp with h | h
    · rw [hact2] at h
      exact lt_of_lt_of_le (hr1 ▸ inv.activeLt p (hsub p h)) hreg2
    · rw [List.mem_singleton] at h
      subst h
      exact hrlt2
  · show (s2.free ++ regsOf (s2.active ++ [(i, r)])).Nodup
    rw [regsOf, List.map_append, hact2]
    exact hnd2
  · intro x hx
    rcases List.mem_append.mp hx with h | h
    · exact lt_of_lt_of_le (inv.mapLt x h) hregs_mono
    · rw [List.mem_singleton] at h
      subst h
      exact hrlt2
  · intro t ht hts
    simp only [Nat.add_sub_cancel] at hts
    by_cases het : t = k
    · subst het
      have : (s.mapping ++ [r]).getD t 0 = r := by
        rw [← inv.maplen]
        exact lsGetD_append_length _ _
      rw [this]
      exact List.mem_append_right _ (List.mem_singleton.mpr rfl)
    · have htk : t < k := by omega
      have hgd : (s.mapping ++ [r]).getD t 0 = s.mapping.getD t 0 :=
        lsGetD_append_lt _ _ t (by rw [inv.maplen]; exact htk)
      rw [hgd]
      refine List.mem_append_left _ ?_
      rw [hact2]
      exact hcover1 t htk hts
  · intro p q hpq hq hov
    by_cases heq : q = k
    · subst heq
      have hpk : p < q := hpq
      have hgdq : (s.mapping ++ [r]).getD q 0 = r := by
        rw [← inv.maplen]
        exact lsGetD_append_length _ _
      have hgdp : (s.mapping ++ [r]).getD p 0 = s.mapping.getD p 0 :=
        lsGetD_append_lt _ _ p (by rw [inv.maplen]; exact hpq)
      rw [hgdq, hgdp]
      have hpmem : ((xs.getD p default), s.mapping.getD p 0) ∈ s1.active :=
        hcover1 p hpq hov
      have hrp : s.mapping.getD p 0 ∈ regsOf s1.active :=
        List.mem_map_of_mem Prod.snd hpmem
      have hnd3 : (regsOf s1.active ++ [r]).Nodup := hnd2.of_append_right
      have hdisj := List.disjoint_of_nodup_append hnd3
      intro hcontra
      exact (hdisj hrp) (by rw [hcontra]; exact List.mem_singleton.mpr rfl)
    · have hqk : q < k := by omega
      have hgdq : (s.mapping ++ [r]).getD q 0 = s.mapping.getD q 0 :=
        lsGetD_append_lt _ _ q (by rw [inv.maplen]; exact hqk)
      have hgdp : (s.mapping ++ [r]).getD p 0 = s.mapping.getD p 0 :=
        lsGetD_append_lt _ _ p (by rw [inv.maplen]; omega)
      rw [hgdq, hgdp]
      exact inv.ovdist p q hpq hqk hov

theorem lsInv_zero (xs : List Interval) : LSInv xs 0 initState := by
  refine ⟨rfl, ?_, ?_, ?_, ?_, ?_, ?_⟩
  · intro x hx
    simp [initState] at hx
  · intro p hp
    simp [initState] at hp
  · simp [initState, regsOf]
  · intro x hx
    simp [initState] at hx
  · intro t ht
    exact absurd ht (Nat.not_lt_zero t)
  · intro p q hpq hq
    exact absurd hq (Nat.not_lt_zero q)

theorem processed_succ (xs : List Interval) (k : Nat) (hk : k < xs.length) :
    processed xs (k + 1) = lsStep (processed xs k) (xs.getD k default) := by
  unfold processed
  rw [List.take_succ, List.getElem?_eq_getElem hk]
  have hgd : xs.getD k default = xs[k] := by
    rw [List.getD_eq_getElem?_getD, List.getElem?_eq_getElem hk]
    rfl
  rw [hgd, List.foldl_append]
  rfl

theorem processed_inv (xs : List Interval)
    (hidx : ∀ t, t < xs.length → (xs.getD t default).index = t)
    (hmono : ∀ q, q < xs.length → ∀ p, p < q →
      (xs.getD p default).start < (xs.getD q default).start)
    (k : Nat) (hk : k ≤ xs.length) : LSInv xs k (processed xs k) := by
  induction k with
  | zero => exact lsInv_zero xs
  | succ n ih =>
    have hn : n < xs.length := by omega
    rw [processed_succ xs n hn]
    exact lsStep_inv xs hidx hmono n hn _ (ih (by omega))

theorem linear_scan_eq_processed (xs : List Interval)
    (hmono : ∀ q, q < xs.length → ∀ p, p < q →
      (xs.getD p default).start < (xs.getD q default).start) :
    linear_scan xs =
      ((processed xs xs.length).registers, (processed xs xs.length).mapping) := by
  have hsorted : List.Sorted (fun a b : Interval => a.start ≤ b.start) xs := by
    rw [List.Sorted, List.pairwise_iff_get]
    intro a b hab
    have hga : xs.get a = xs.getD a.val default := by
      rw [List.getD_eq_getElem?_getD, List.getElem?_eq_getElem a.isLt]
      rfl
    have hgb : xs.get b = xs.getD b.val default := by
      rw [List.getD_eq_getElem?_getD, List.getElem?_eq_getElem b.isLt]
      rfl
    rw [hga, hgb]
    exact le_of_lt (hmono b.val b.isLt a.val hab)
  unfold linear_scan processed
  rw [List.Sorted.insertionSort_eq hsorted, List.take_length]

/-- C1: after linear_scan on an interval list produced by alloc/access
(indices are positions, start points strictly increase), any two distinct
overlapping intervals are mapped to distinct physical registers, and every
register in the mapping is below the returned register count. -/
theorem c1_linear_scan_correct (xs : List Interval)
    (hidx : ∀ t, t < xs.length → (xs.getD t default).index = t)
    (hmono : ∀ q, q < xs.length → ∀ p, p < q →
      (xs.getD p default).start < (xs.getD q default).start)
    (p q : Nat) (hp : p < xs.length) (hq : q < xs.length) (hne : p ≠ q)
    (hov1 : (xs.getD p default).start ≤ (xs.getD q default).start)
    (hov2 : (xs.getD q default).start ≤ (xs.getD p default).stop) :
    (linear_scan xs).2.getD (xs.getD p default).index 0 ≠
      (linear_scan xs).2.getD (xs.getD q default).index 0 ∧
    ∀ r ∈ (linear_scan xs).2, r < (linear_scan xs).1 := by
  have inv := processed_inv xs hidx hmono xs.length (le_refl _)
  have hls := linear_scan_eq_processed xs hmono
  have hpq : p < q := by
    rcases Nat.lt_or_ge p q with h | h
    · exact h
    · have hqp : q < p := by omega
      exact absurd hov1 (not_le.mpr (hmono p hp q hqp))
  constructor
  · rw [hls, hidx p hp, hidx q hq]
    exact inv.ovdist p q hpq hq hov2
  · intro r hr
    rw [hls] at hr ⊢
    exact inv.mapLt r hr

/-- Closed instance of the linear-scan theorem: two overlapping intervals
(produced by alloc, alloc, access of the first register) receive distinct
physical registers, both below the returned count. -/
theorem c1_linear_scan_witness :
    (linear_scan [⟨0, 0, 2⟩, ⟨1, 1, 1⟩]).2.getD 0 0 ≠
      (linear_scan [⟨0, 0, 2⟩, ⟨1, 1, 1⟩]).2.getD 1 0 ∧
    ∀ r ∈ (linear_scan [⟨0, 0, 2⟩, ⟨1, 1, 1⟩]).2,
      r < (linear_scan [⟨0, 0, 2⟩, ⟨1, 1, 1⟩]).1 := by
  have h := c1_linear_scan_correct [⟨0, 0, 2⟩, ⟨1, 1, 1⟩]
    (by decide) (by decide) 0 1 (by decide) (by decide) (by decide)
    (by decide) (by decide)
  simpa using h

end regalloc

/-- C5 counterexample: at the top level of the root module, a let is emitted
as a string-keyed StoreGlobal, not as a module-variable store. -/
theorem c5_counterexample_root_let :
    (emit.emit_var_stmt true true [] "x" 0).1 = emit.Instr.StoreGlobal "x" ∧
    (emit.emit_var_stmt true true [] "x" 0).1.isStoreModuleVar = false :=
  ⟨rfl, rfl⟩

/-- C5 amended: at module top level a let stores into a module-variable slot,
reusing the slot for the name if one exists (so a second let compiles to the
same store as a plain assignment) — in every module except the root module,
whose top-level lets are emitted as string-keyed global stores. The vm3
emitter's declare_var behaves the same way for every top-level let. -/
theorem c5_let_module_slot :
    (∀ vars name register,
      (emit.emit_var_stmt true true vars name register).1 = .StoreGlobal name) ∧
    (∀ vars name register,
      (emit.emit_var_stmt true false vars name register).1 =
        .StoreModuleVar (emit.declare_module_var vars name).1) ∧
    (∀ vars name,
      emit.declare_module_var ((emit.declare_module_var vars name).2) name =
        ((emit.declare_module_var vars name).1, (emit.declare_module_var vars name).2)) ∧
    (∀ vars name register idx rs, vars.length ≤ 65535 →
      List.lookup name vars = some idx →
      vm3.declare_var vars name register rs =
        .ok (.set_mvar register idx, vars, vm3.free rs register)) ∧
    (∀ vars name register rs, vars.length ≤ 65535 →
      List.lookup name vars = Option.none →
      vm3.declare_var vars name register rs =
        .ok (.set_mvar register vars.length, vars ++ [(name, vars.length)],
          vm3.free rs register) ∧
      List.lookup name (vars ++ [(name, vars.length)]) = some vars.length) := by
  refine ⟨fun vars name register => rfl, fun vars name register => rfl,
    fun vars name => ?_, fun vars name register idx rs hlen hl => ?_,
    fun vars name register rs hlen hl => ?_⟩
  · cases hi : emit.indexOfName vars name with
    | some i => simp [emit.declare_module_var, hi]
    | none =>
      simp only [emit.declare_module_var, hi]
      rw [emit.indexOfName_append_self vars name hi]
  · have hnot : ¬ (vars.length > 65535) := by omega
    simp [vm3.declare_var, hnot, hl]
  · have hnot : ¬ (vars.length > 65535) := by omega
    exact ⟨by simp [vm3.declare_var, hnot, hl], vm3.lookup_append_self vars name _ hl⟩

/-- Closed instance of the amended let/module-slot theorem: a redeclared
top-level variable reuses slot 0 in both emitters. -/
theorem c5_let_module_slot_witness :
    (emit.emit_var_stmt true false ["x"] "x" 0).1 = emit.Instr.StoreModuleVar 0 ∧
    vm3.declare_var [("x", 0)] "x" 3 ⟨4, 4⟩ =
      .ok (.set_mvar 3 0, [("x", 0)], vm3.free ⟨4, 4⟩ 3) := by
  constructor
  · rw [c5_let_module_slot.2.1]
    rfl
  · exact c5_let_module_slot.2.2.2.1 [("x", 0)] "x" 3 0 ⟨4, 4⟩ (by norm_num) rfl

/-- C7 counterexample: allocating the 256th virtual register fails, so a
function using exactly 256 virtual registers does not compile. -/
theorem c7_counterexample_256_registers :
    vm3.isOkE (vm3.allocN 256 ⟨0, 0⟩) = false := by decide

/-- C7 amended: a function using exactly 255 virtual registers compiles,
while one using 256 yields an EmitError (FunctionState::reg refuses the
allocation once the counter reaches u8::MAX). -/
theorem c7_register_boundary :
    vm3.isOkE (vm3.allocN 255 ⟨0, 0⟩) = true ∧
    vm3.isOkE (vm3.allocN 256 ⟨0, 0⟩) = false := by decide

/-- C9 counterexample: op_load_named_opt errors on an int receiver instead
of returning none. -/
theorem c9_counterexample_int_receiver :
    vm.op_load_named_opt (.vint 1) "x" = .error () := rfl

/-- C9 amended: field::get_opt maps receiver none, non-object receivers and
missing fields all to Ok(none) — the last being exactly the case that makes
the non-optional get fail — while the vm crate's op_load_named_opt
short-circuits only on none, errors on non-dict receivers, and maps a
missing key to none. -/
theorem c9_opt_field_load : ∀ key : String,
    (∀ receiver : field.FVal, receiver.is_object = false →
      field.get_opt receiver key = .ok .vnone) ∧
    (∀ fields frozen bind, List.lookup key fields = Option.none →
      field.get_opt (.vobj fields frozen bind) key = .ok .vnone ∧
      field.get (.vobj fields frozen bind) key = .error ()) ∧
    (vm.op_load_named_opt .vnone key = .ok .vnone) ∧
    (∀ entries, List.lookup key entries = Option.none →
      vm.op_load_named_opt (.vdict entries) key = .ok .vnone) ∧
    (∀ acc : vm.VmValue, acc.is_none = false → acc.as_dict = Option.none →
      vm.op_load_named_opt acc key = .error ()) := by
  intro key
  refine ⟨fun receiver hro => ?_, fun fields frozen bind hl => ?_, rfl,
    fun entries hl => ?_, fun acc hn hd => ?_⟩
  · cases receiver <;> simp_all [field.get_opt, field.FVal.is_object, field.FVal.is_none]
  · exact ⟨by simp [field.get_opt, field.FVal.is_none, hl], by simp [field.get, hl]⟩
  · simp [vm.op_load_named_opt, vm.VmValue.is_none, vm.VmValue.as_dict, hl]
  · simp [vm.op_load_named_opt, hn, hd]

/-- Closed instance of the optional-field-load theorem: an int receiver and
an empty object both load none through get_opt, and an empty dict loads
none through op_load_named_opt. -/
theorem c9_opt_field_load_witness :
    field.get_opt (.vint 3) "x" = .ok .vnone ∧
    field.get_opt (.vobj [] false false) "x" = .ok .vnone ∧
    vm.op_load_named_opt (.vdict []) "x" = .ok .vnone := by
  refine ⟨(c9_opt_field_load "x").1 _ rfl,
    ((c9_opt_field_load "x").2.1 [] false false rfl).1,
    (c9_opt_field_load "x").2.2.2.1 [] rfl⟩
